import Mathlib

/-!
Verification development for the kana-dojo quiz games.

The repository's algorithmic core is spread over the quiz components
`PickGame` (ResourceDetailModal.tsx bundle) and `WordBuildingGame.tsx`,
which call three helper modules (`adaptiveSelection`,
`useProgressiveDifficulty`, `useSmartReverseMode`).  The helper modules
themselves are not part of the source tree given here — only their call
sites are — so those are modelled from the specification's words
(each such definition is marked `Modelled from the spec:`).  Everything
else is a direct shallow embedding of the TypeScript in the components,
with the random sources (the `random-js` instance) made explicit as
function or permutation parameters.
-/

namespace KanaDojo

/-- Outcome of one answered question: the learner was correct or wrong. -/
inductive Outcome where
  | correct : Outcome
  | wrong : Outcome
deriving DecidableEq, Repr

/-! ## ProgressiveDifficulty (spec §4.2; module absent from src/) -/

/-- Configuration of the progressive-difficulty controller, supplied at
construction (spec §4.2, §6).  The pick game constructs it with
`{minOptions: 3, maxOptions: 6, streakPerLevel: 5, wrongsToDecrease: 2}`
(ResourceDetailModal.tsx, `useProgressiveDifficulty` call site). -/
structure DifficultyConfig where
  minOptions : Nat
  maxOptions : Nat
  streakPerLevel : Nat
  wrongsToDecrease : Nat
deriving DecidableEq, Repr

/-- State of the progressive-difficulty controller (spec §3,
`DifficultyState`). -/
structure DifficultyState where
  optionCount : Nat
  correctStreak : Nat
  wrongCount : Nat
deriving DecidableEq, Repr

/-- Modelled from the spec: `useProgressiveDifficulty` is not in src/.
Initial state: `optionCount = minOptions`, both counters 0 (spec §4.2). -/
def initialDifficulty (cfg : DifficultyConfig) : DifficultyState :=
  { optionCount := cfg.minOptions, correctStreak := 0, wrongCount := 0 }

/-- Modelled from the spec: `recordCorrect()` of `useProgressiveDifficulty`
(not in src/).  Increments `correctStreak`, resets `wrongCount` to 0; when
the streak reaches a multiple of `streakPerLevel`, increments `optionCount`
by 1 capped at `maxOptions`, without resetting the streak (spec §4.2). -/
def recordCorrect (cfg : DifficultyConfig) (s : DifficultyState) : DifficultyState :=
  let streak := s.correctStreak + 1
  let levelUp := streak % cfg.streakPerLevel == 0
  { optionCount := if levelUp then min (s.optionCount + 1) cfg.maxOptions else s.optionCount,
    correctStreak := streak,
    wrongCount := 0 }

/-- Modelled from the spec: `recordWrong()` of `useProgressiveDifficulty`
(not in src/).  Increments `wrongCount`, resets `correctStreak` to 0; when
`wrongCount` reaches `wrongsToDecrease`, decrements `optionCount` by 1
floored at `minOptions` and resets `wrongCount` to 0 (spec §4.2). -/
def recordWrong (cfg : DifficultyConfig) (s : DifficultyState) : DifficultyState :=
  let wrongs := s.wrongCount + 1
  let levelDown := wrongs ≥ cfg.wrongsToDecrease
  { optionCount := if levelDown then max (s.optionCount - 1) cfg.minOptions else s.optionCount,
    correctStreak := 0,
    wrongCount := if levelDown then 0 else wrongs }

/-- One controller transition, dispatching on the answer outcome. -/
def difficultyStep (cfg : DifficultyConfig) (s : DifficultyState) : Outcome → DifficultyState
  | .correct => recordCorrect cfg s
  | .wrong => recordWrong cfg s

/-- The controller state after a finite sequence of recorded outcomes,
starting from the initial state. -/
def applyDifficulty (cfg : DifficultyConfig) (moves : List Outcome) : DifficultyState :=
  moves.foldl (difficultyStep cfg) (initialDifficulty cfg)

/-- The configuration the pick game passes to `useProgressiveDifficulty`
(ResourceDetailModal.tsx). -/
def pickDifficultyConfig : DifficultyConfig :=
  { minOptions := 3, maxOptions := 6, streakPerLevel := 5, wrongsToDecrease := 2 }

/-! ## ReverseModeController (spec §4.3; module absent from src/) -/

/-- State of the smart-reverse-mode controller (spec §3,
`ReverseModeState`). -/
structure ReverseModeState where
  isReverse : Bool
  consecutiveCorrect : Nat
deriving DecidableEq, Repr

/-- Modelled from the spec: `recordWrongAnswer()` of `useSmartReverseMode`
(not in src/).  Resets `consecutiveCorrect` to 0 but leaves `isReverse`
unchanged (spec §4.3; the call site in ResourceDetailModal.tsx carries the
comment "Reset consecutive streak without changing mode"). -/
def recordWrongAnswer (s : ReverseModeState) : ReverseModeState :=
  { isReverse := s.isReverse, consecutiveCorrect := 0 }

/-! ## AdaptiveSelector (spec §4.1; module absent from src/) -/

/-- Error kinds of the core (spec §7): only `invalidArgument`. -/
inductive SelectionError where
  | invalidArgument : String → SelectionError
deriving DecidableEq, Repr

/-- Modelled from the spec: cumulative-weight walk of the weighted draw
(spec §4.1, "cumulative-weight + uniform draw").  `r` is the uniform
random draw; the walk keeps the last element as fallback so a draw beyond
the total weight still yields a member. -/
def pickWeightedAux (weight : String → ℚ) (r : ℚ) (c : String) : List String → String
  | [] => c
  | d :: rest => if r < weight c then c else pickWeightedAux weight (r - weight c) d rest

/-- Message of the empty-pool precondition violation. -/
def emptyPoolMessage : String :=
  "selectWeightedCharacter: empty pool"

/-- Modelled from the spec: `selectWeightedCharacter` of the
`adaptiveSelection` module (not in src/).  A weighted random draw over the
pool; an empty pool is a programming error signalled with an
`invalidArgument` kind (spec §4.1, §7).  Pure: the weight map and the
random draw are inputs, no state is returned. -/
def selectWeightedCharacter (weight : String → ℚ) (r : ℚ) :
    List String → Except SelectionError String
  | [] => .error (.invalidArgument emptyPoolMessage)
  | c :: rest => .ok (pickWeightedAux weight r c rest)

/-- Modelled from the spec: the positive weight floor (spec §3: weight
clamped at a small positive floor; exact value tunable). -/
def weightFloor : ℚ := 1 / 10

/-- Modelled from the spec: the weight ceiling that prevents unbounded
growth (spec §4.1; exact value tunable). -/
def weightCeiling : ℚ := 10

/-- Modelled from the spec: multiplicative decay factor applied on a
correct answer (spec §4.1; exact value tunable, in (0, 1)). -/
def decayFactor : ℚ := 8 / 10

/-- Modelled from the spec: multiplicative growth factor applied on a
wrong answer (spec §4.1; exact value tunable, greater than 1). -/
def growthFactor : ℚ := 3 / 2

/-- Modelled from the spec: `updateCharacterWeight` of the
`adaptiveSelection` module (not in src/).  Multiplicative update, clamped
to `[weightFloor, weightCeiling]` (spec §4.1). -/
def updateCharacterWeight (w : ℚ) (wasCorrect : Bool) : ℚ :=
  if wasCorrect then max weightFloor (w * decayFactor)
  else min weightCeiling (w * growthFactor)

/-! ## PickGame round construction (ResourceDetailModal.tsx bundle) -/

/-- The romaji values that remain after destructuring the correct key out
of `selectedPairs` — `PickGame.getIncorrectOptions` computes
`Object.values(incorrectPairs)` where `incorrectPairs` is `selectedPairs`
without the entry for the correct character
(ResourceDetailModal.tsx, `getIncorrectOptions`). -/
def incorrectPool (pairs : List (String × String)) (correctKey : String) : List String :=
  (pairs.filter (fun p => p.1 ≠ correctKey)).map Prod.snd

/-- `getIncorrectOptions(count)` after the random sort: the code slices the
first `count - 1` elements of the randomly re-ordered remaining values
(ResourceDetailModal.tsx, `.sort(() => random.real(0,1) - 0.5).slice(0, incorrectCount)`
with `incorrectCount = count - 1`).  The random re-ordering is the
`shuffledPool` parameter, constrained to a permutation of
`incorrectPool` at the theorems. -/
def getIncorrectOptions (shuffledPool : List String) (count : Nat) : List String :=
  shuffledPool.take (count - 1)

/-! ## WordBuildingGame (WordBuildingGame.tsx) -/

/-- Result of `generateWord`: the prompt characters, the expected answer
characters, and the tiles offered (answers plus distractors, shuffled). -/
structure WordData where
  wordChars : List String
  answerChars : List String
  allTiles : List String
deriving DecidableEq, Repr

/-- The word-character loop of `generateWord` (WordBuildingGame.tsx):
`n` more iterations, `acc` the characters picked so far (the code's
`wordChars` array with `usedChars` its set of members).  Each iteration
filters out the used characters, breaks when nothing is available, and
otherwise appends `adaptiveSelector.selectWeightedCharacter(available)` —
made explicit as the selector function `sel`. -/
def buildWordChars (sel : List String → String) (source : List String) :
    Nat → List String → List String
  | 0, acc => acc
  | n + 1, acc =>
    let available := source.filter (fun c => !(acc.contains c))
    if available.isEmpty then acc
    else buildWordChars sel source n (acc ++ [sel available])

/-- The distractor loop of `generateWord` (WordBuildingGame.tsx): each
iteration filters the distractor source down to characters neither in
`usedAnswers` nor already chosen, breaks when nothing is available, and
otherwise appends a randomly indexed element — made explicit as the
chooser function `dsel`. -/
def buildDistractors (dsel : List String → String) (dsource : List String)
    (usedAnswers : List String) : Nat → List String → List String
  | 0, acc => acc
  | n + 1, acc =>
    let available :=
      dsource.filter (fun c => !(usedAnswers.contains c) && !(acc.contains c))
    if available.isEmpty then acc
    else buildDistractors dsel dsource usedAnswers n (acc ++ [dsel available])

/-- `generateWord` (WordBuildingGame.tsx).  `sel` stands for the adaptive
selector's weighted draw, `dsel` for the uniformly indexed distractor
draw, and `shuffle` for the final `.sort(() => random.real(0,1) - 0.5)`;
`kanaToRomaji`/`romajiToKana` are the lookup maps built from the selected
groups.  Note that the tile count is `wordLength` answers plus
`min 3 (sourceChars.length - wordLength)` distractors — the component
never consults `useProgressiveDifficulty`. -/
def generateWord (sel dsel : List String → String)
    (shuffle : List String → List String) (isReverse : Bool)
    (selectedKana selectedRomaji : List String)
    (kanaToRomaji romajiToKana : String → String) (wordLength : Nat) : WordData :=
  let sourceChars := if isReverse then selectedRomaji else selectedKana
  if sourceChars.length < wordLength then
    { wordChars := [], answerChars := [], allTiles := [] }
  else
    let wordChars := buildWordChars sel sourceChars wordLength []
    let answerChars :=
      if isReverse then wordChars.map romajiToKana else wordChars.map kanaToRomaji
    let distractorCount := min 3 (sourceChars.length - wordLength)
    let distractorSource := if isReverse then selectedKana else selectedRomaji
    let distractors := buildDistractors dsel distractorSource answerChars distractorCount []
    { wordChars := wordChars,
      answerChars := answerChars,
      allTiles := shuffle (answerChars ++ distractors) }

/-- The correctness test of `handleCheck` (WordBuildingGame.tsx):
`placedTiles.length === answerChars.length && placedTiles.every((tile, i) => tile === answerChars[i])`.
With the length guard, the element-wise `every` is the pointwise
comparison of the zipped lists. -/
def wordIsCorrect (placedTiles answerChars : List String) : Bool :=
  placedTiles.length == answerChars.length &&
    (placedTiles.zip answerChars).all (fun p => p.1 == p.2)

/-- The bottom-bar state of the word game (WordBuildingGame.tsx,
`BottomBarState`). -/
inductive BottomBarState where
  | check : BottomBarState
  | correct : BottomBarState
  | wrong : BottomBarState
deriving DecidableEq, Repr

/-- The component state of the word game that the checked handlers touch:
the generated word, the tiles placed in the answer row, the checking flag,
the bottom-bar state and the session score (WordBuildingGame.tsx).
External collaborators (audio, stats sink, stopwatch, reverse-mode hook)
are out of scope per spec §2. -/
structure WordGameState where
  wordData : WordData
  placedTiles : List String
  isChecking : Bool
  bottomBarState : BottomBarState
  score : Int
deriving DecidableEq, Repr

/-- `handleCheck` (WordBuildingGame.tsx): no-op on an empty answer row;
otherwise sets `isChecking`, judges the placed tiles, and on a correct
answer adds `wordChars.length` to the score and shows the correct bar,
while on a wrong answer decrements the score only when the result stays
nonnegative and shows the wrong bar.  `setWordData` is not called on
either branch. -/
def handleCheck (s : WordGameState) : WordGameState :=
  if s.placedTiles.isEmpty then s
  else if wordIsCorrect s.placedTiles s.wordData.answerChars then
    { s with isChecking := true,
             score := s.score + s.wordData.wordChars.length,
             bottomBarState := .correct }
  else
    { s with isChecking := true,
             score := if s.score - 1 ≥ 0 then s.score - 1 else s.score,
             bottomBarState := .wrong }

/-- `handleTryAgain` (WordBuildingGame.tsx): clears the placed tiles and
returns to the check state, keeping the same word. -/
def handleTryAgain (s : WordGameState) : WordGameState :=
  { s with placedTiles := [], isChecking := false, bottomBarState := .check }

/-! ## Session score (both games) -/

/-- The pick game's score update (ResourceDetailModal.tsx bundle):
`setScore(score + 1)` on a correct answer; on a wrong answer
`if (score - 1 < 0) setScore(0) else setScore(score - 1)`. -/
def pickScoreStep (score : Int) : Outcome → Int
  | .correct => score + 1
  | .wrong => if score - 1 < 0 then 0 else score - 1

/-- The word game's score update (WordBuildingGame.tsx): the correct
branch adds `wordChars.length`; the wrong branch runs
`if (score - 1 >= 0) setScore(score - 1)`, leaving the score untouched
otherwise. -/
def wordScoreStep (wordLen : Nat) (score : Int) : Outcome → Int
  | .correct => score + wordLen
  | .wrong => if score - 1 ≥ 0 then score - 1 else score

/-- Pick-game score after a sequence of outcomes, from the initial 0. -/
def runPickScore (moves : List Outcome) : Int :=
  moves.foldl pickScoreStep 0

/-- Word-game score after a sequence of outcomes, from the initial 0,
with every round's word of length `wordLen`. -/
def runWordScore (wordLen : Nat) (moves : List Outcome) : Int :=
  moves.foldl (wordScoreStep wordLen) 0

/-! ## Concrete data for witnesses and counterexamples -/

/-- The empty string, bound to a name for use as a lookup default. -/
def emptyString : String :=
  ""

/-- A demo prompt-side pool of eight characters. -/
def demoKana : List String :=
  ["a1", "a2", "a3", "a4", "a5", "a6", "a7", "a8"]

/-- The matching answer-side pool. -/
def demoRomaji : List String :=
  ["b1", "b2", "b3", "b4", "b5", "b6", "b7", "b8"]

/-- The demo pools zipped into character/romanization pairs, in the shape
of the components' `selectedPairs` maps. -/
def demoPairs : List (String × String) :=
  demoKana.zip demoRomaji

/-- Demo kana-to-romaji lookup over `demoPairs`. -/
def demoK2R (s : String) : String :=
  (demoPairs.lookup s).getD emptyString

/-- Demo romaji-to-kana lookup over `demoPairs`. -/
def demoR2K (s : String) : String :=
  ((demoPairs.map (fun p => (p.2, p.1))).lookup s).getD emptyString

/-- A deterministic stand-in for the random selectors: always the head. -/
def headSelector (l : List String) : String :=
  l.headD emptyString

/-! ## Helper lemmas -/

/-- One difficulty transition keeps `optionCount` within the configured
bounds. -/
theorem difficultyStep_bounds (cfg : DifficultyConfig)
    (h : cfg.minOptions ≤ cfg.maxOptions) (s : DifficultyState) (m : Outcome)
    (h1 : cfg.minOptions ≤ s.optionCount) (h2 : s.optionCount ≤ cfg.maxOptions) :
    cfg.minOptions ≤ (difficultyStep cfg s m).optionCount ∧
      (difficultyStep cfg s m).optionCount ≤ cfg.maxOptions := by
  cases m <;> simp [difficultyStep, recordCorrect, recordWrong] <;>
    split_ifs <;> omega

/-- Folding difficulty transitions preserves the `optionCount` bounds. -/
theorem foldl_difficultyStep_bounds (cfg : DifficultyConfig)
    (h : cfg.minOptions ≤ cfg.maxOptions) (moves : List Outcome)
    (s : DifficultyState) (h1 : cfg.minOptions ≤ s.optionCount)
    (h2 : s.optionCount ≤ cfg.maxOptions) :
    cfg.minOptions ≤ (moves.foldl (difficultyStep cfg) s).optionCount ∧
      (moves.foldl (difficultyStep cfg) s).optionCount ≤ cfg.maxOptions := by
  induction moves generalizing s with
  | nil => exact ⟨h1, h2⟩
  | cons m ms ih =>
    obtain ⟨a, b⟩ := difficultyStep_bounds cfg h s m h1 h2
    exact ih _ a b

/-- One pick-game score update preserves nonnegativity. -/
theorem pickScoreStep_nonneg (s : Int) (hs : 0 ≤ s) (m : Outcome) :
    0 ≤ pickScoreStep s m := by
  cases m <;> simp only [pickScoreStep] <;> omega

/-- One word-game score update preserves nonnegativity. -/
theorem wordScoreStep_nonneg (wordLen : Nat) (s : Int) (hs : 0 ≤ s) (m : Outcome) :
    0 ≤ wordScoreStep wordLen s m := by
  cases m <;> simp only [wordScoreStep] <;> [omega; skip]
  split <;> omega

/-- Folding score updates preserves nonnegativity (pick game). -/
theorem foldl_pickScoreStep_nonneg (moves : List Outcome) (s : Int) (hs : 0 ≤ s) :
    0 ≤ moves.foldl pickScoreStep s := by
  induction moves generalizing s with
  | nil => exact hs
  | cons m ms ih => exact ih _ (pickScoreStep_nonneg s hs m)

/-- Folding score updates preserves nonnegativity (word game). -/
theorem foldl_wordScoreStep_nonneg (wordLen : Nat) (moves : List Outcome)
    (s : Int) (hs : 0 ≤ s) : 0 ≤ moves.foldl (wordScoreStep wordLen) s := by
  induction moves generalizing s with
  | nil => exact hs
  | cons m ms ih => exact ih _ (wordScoreStep_nonneg wordLen s hs m)

/-! ## Claim theorems -/

/-- C3: for every finite sequence of `recordCorrect()`/`recordWrong()` calls
from the initial ProgressiveDifficulty state, `optionCount` stays within
`[minOptions, maxOptions]` after every call (for any configuration with
`minOptions ≤ maxOptions`, in particular the pick game's 3..6). -/
theorem applyDifficulty_optionCount_bounded (cfg : DifficultyConfig)
    (h : cfg.minOptions ≤ cfg.maxOptions) (moves : List Outcome) :
    cfg.minOptions ≤ (applyDifficulty cfg moves).optionCount ∧
      (applyDifficulty cfg moves).optionCount ≤ cfg.maxOptions :=
  foldl_difficultyStep_bounds cfg h moves (initialDifficulty cfg) (le_refl _) h

/-- Witness for C3: the pick-game configuration after a concrete
correct/wrong sequence stays within 3..6. -/
theorem applyDifficulty_optionCount_bounded_witness :
    3 ≤ (applyDifficulty pickDifficultyConfig
          [.correct, .wrong, .wrong, .correct]).optionCount ∧
      (applyDifficulty pickDifficultyConfig
          [.correct, .wrong, .wrong, .correct]).optionCount ≤ 6 :=
  applyDifficulty_optionCount_bounded pickDifficultyConfig (by decide)
    [.correct, .wrong, .wrong, .correct]

/-- C4: `recordWrongAnswer()` resets `consecutiveCorrect` to 0 and leaves
`isReverse` unchanged, for every ReverseModeState. -/
theorem recordWrongAnswer_keeps_orientation (s : ReverseModeState) :
    (recordWrongAnswer s).isReverse = s.isReverse ∧
      (recordWrongAnswer s).consecutiveCorrect = 0 :=
  ⟨rfl, rfl⟩

/-- C7: with the pick game's configuration (min 3, max 6, streak 5, wrongs 2),
a fresh state has `optionCount = 3`; five consecutive correct calls move it
to 4; the next two consecutive wrong calls move it back to 3 and reset the
wrong counter to 0. -/
theorem difficulty_five_up_two_down :
    (initialDifficulty pickDifficultyConfig).optionCount = 3 ∧
      (applyDifficulty pickDifficultyConfig
        (List.replicate 5 .correct)).optionCount = 4 ∧
      (applyDifficulty pickDifficultyConfig
        (List.replicate 5 .correct ++ [.wrong, .wrong])).optionCount = 3 ∧
      (applyDifficulty pickDifficultyConfig
        (List.replicate 5 .correct ++ [.wrong, .wrong])).wrongCount = 0 := by
  decide

/-- The cumulative-weight walk always lands on a member of the pool. -/
theorem pickWeightedAux_mem (weight : String → ℚ) (r : ℚ) (c : String)
    (rest : List String) : pickWeightedAux weight r c rest ∈ c :: rest := by
  induction rest generalizing r c with
  | nil => simp [pickWeightedAux]
  | cons d rest ih =>
    rw [pickWeightedAux]
    split
    · simp
    · have h := ih (r - weight c) d
      simp only [List.mem_cons] at h ⊢
      tauto

/-- C10: the word game judges an answer correct exactly when the placed
tiles agree with `answerChars` in length and element by element — that is,
exactly when the two lists are equal; every permutation, strict prefix or
extension differing from the answer is judged wrong. -/
theorem wordIsCorrect_iff_eq (placedTiles answerChars : List String) :
    wordIsCorrect placedTiles answerChars = true ↔ placedTiles = answerChars := by
  induction placedTiles generalizing answerChars with
  | nil => cases answerChars <;> simp [wordIsCorrect]
  | cons t ts ih =>
    cases answerChars with
    | nil => simp [wordIsCorrect]
    | cons a as =>
      have h := ih as
      simp only [wordIsCorrect, List.zip_cons_cons, List.all_cons, List.length_cons,
        Bool.and_eq_true, beq_iff_eq, Nat.add_right_cancel_iff, List.cons.injEq] at h ⊢
      constructor
      · rintro ⟨hlen, hta, hall⟩
        exact ⟨hta, h.mp ⟨hlen, hall⟩⟩
      · rintro ⟨hta, hts⟩
        obtain ⟨hlen, hall⟩ := h.mpr hts
        exact ⟨hlen, hta, hall⟩

/-- C9: in both games a wrong answer decrements the score by exactly 1
when the result stays nonnegative and otherwise leaves it at 0, and the
session score is nonnegative after every sequence of outcomes. -/
theorem score_clamped_nonneg (wordLen : Nat) (s : Int) (hs : 1 ≤ s)
    (moves : List Outcome) :
    pickScoreStep s .wrong = s - 1 ∧
      wordScoreStep wordLen s .wrong = s - 1 ∧
      pickScoreStep 0 .wrong = 0 ∧
      wordScoreStep wordLen 0 .wrong = 0 ∧
      0 ≤ runPickScore moves ∧
      0 ≤ runWordScore wordLen moves := by
  refine ⟨?_, ?_, ?_, ?_,
    foldl_pickScoreStep_nonneg moves 0 le_rfl,
    foldl_wordScoreStep_nonneg wordLen moves 0 le_rfl⟩ <;>
    simp only [pickScoreStep, wordScoreStep] <;> split_ifs <;> omega

/-- Witness for C9 at score 5, word length 3, and a concrete outcome
sequence. -/
theorem score_clamped_nonneg_witness :
    pickScoreStep 5 .wrong = 5 - 1 ∧
      wordScoreStep 3 5 .wrong = 5 - 1 ∧
      pickScoreStep 0 .wrong = 0 ∧
      wordScoreStep 3 0 .wrong = 0 ∧
      0 ≤ runPickScore [.wrong, .correct, .wrong] ∧
      0 ≤ runWordScore 3 [.wrong, .correct, .wrong] :=
  score_clamped_nonneg 3 5 (by norm_num) [.wrong, .correct, .wrong]

/-- C8: a wrong check leaves the generated word (`wordChars`,
`answerChars`, `allTiles`) unchanged and shows the wrong bar, and the
try-again action only clears the placed tiles and returns to the check
state while keeping the same word. -/
theorem wrong_answer_keeps_word (s : WordGameState)
    (hne : s.placedTiles ≠ [])
    (hwrong : wordIsCorrect s.placedTiles s.wordData.answerChars = false) :
    (handleCheck s).wordData.wordChars = s.wordData.wordChars ∧
      (handleCheck s).wordData.answerChars = s.wordData.answerChars ∧
      (handleCheck s).wordData.allTiles = s.wordData.allTiles ∧
      (handleCheck s).bottomBarState = .wrong ∧
      (handleTryAgain (handleCheck s)).wordData = s.wordData ∧
      (handleTryAgain (handleCheck s)).placedTiles = [] ∧
      (handleTryAgain (handleCheck s)).isChecking = false ∧
      (handleTryAgain (handleCheck s)).bottomBarState = .check := by
  have hempty : s.placedTiles.isEmpty = false := by
    cases hp : s.placedTiles with
    | nil => exact absurd hp hne
    | cons x xs => rfl
  simp [handleCheck, handleTryAgain, hempty, hwrong]

/-- A concrete word-game state sitting on a wrong answer. -/
def demoWordState : WordGameState :=
  { wordData :=
      { wordChars := ["a1", "a2", "a3"],
        answerChars := ["b1", "b2", "b3"],
        allTiles := ["b1", "b2", "b3", "b4", "b5", "b6"] },
    placedTiles := ["b2"],
    isChecking := false,
    bottomBarState := .check,
    score := 0 }

/-- Witness for C8 at the concrete wrong-answer state. -/
theorem wrong_answer_keeps_word_witness :
    (handleCheck demoWordState).wordData.wordChars = demoWordState.wordData.wordChars ∧
      (handleCheck demoWordState).wordData.answerChars = demoWordState.wordData.answerChars ∧
      (handleCheck demoWordState).wordData.allTiles = demoWordState.wordData.allTiles ∧
      (handleCheck demoWordState).bottomBarState = .wrong ∧
      (handleTryAgain (handleCheck demoWordState)).wordData = demoWordState.wordData ∧
      (handleTryAgain (handleCheck demoWordState)).placedTiles = [] ∧
      (handleTryAgain (handleCheck demoWordState)).isChecking = false ∧
      (handleTryAgain (handleCheck demoWordState)).bottomBarState = .check :=
  wrong_answer_keeps_word demoWordState (by decide) (by decide)

/-- C5: the weight update is monotone and bounded — on a correct answer it
strictly decreases the weight unless already at the positive floor, on a
wrong answer it strictly increases it unless already at the ceiling, and
the result stays within `[weightFloor, weightCeiling]` with a positive
floor. -/
theorem updateCharacterWeight_monotone_bounded (w : ℚ)
    (hlo : weightFloor ≤ w) (hhi : w ≤ weightCeiling) :
    0 < weightFloor ∧
      weightFloor ≤ updateCharacterWeight w true ∧
      updateCharacterWeight w true ≤ weightCeiling ∧
      weightFloor ≤ updateCharacterWeight w false ∧
      updateCharacterWeight w false ≤ weightCeiling ∧
      (weightFloor < w → updateCharacterWeight w true < w) ∧
      (w < weightCeiling → w < updateCharacterWeight w false) := by
  have hfloor : (0 : ℚ) < weightFloor := by norm_num [weightFloor]
  have hw : 0 < w := lt_of_lt_of_le hfloor hlo
  have h1 : updateCharacterWeight w true = max weightFloor (w * decayFactor) := rfl
  have h2 : updateCharacterWeight w false = min weightCeiling (w * growthFactor) := rfl
  refine ⟨hfloor, ?_, ?_, ?_, ?_, ?_, ?_⟩
  · rw [h1]; exact le_max_left _ _
  · rw [h1]
    apply max_le (le_trans hlo hhi)
    simp only [weightCeiling, decayFactor] at hhi ⊢
    linarith
  · rw [h2]
    apply le_min (le_trans hlo hhi)
    simp only [weightFloor, growthFactor] at hlo ⊢
    linarith
  · rw [h2]; exact min_le_left _ _
  · intro hlt
    rw [h1]
    apply max_lt hlt
    simp only [decayFactor]
    linarith
  · intro hlt
    rw [h2]
    apply lt_min hlt
    simp only [growthFactor]
    linarith

/-- Witness for C5 at weight 1. -/
theorem updateCharacterWeight_monotone_bounded_witness :
    0 < weightFloor ∧
      weightFloor ≤ updateCharacterWeight 1 true ∧
      updateCharacterWeight 1 true ≤ weightCeiling ∧
      weightFloor ≤ updateCharacterWeight 1 false ∧
      updateCharacterWeight 1 false ≤ weightCeiling ∧
      (weightFloor < 1 → updateCharacterWeight 1 true < 1) ∧
      (1 < weightCeiling → 1 < updateCharacterWeight 1 false) :=
  updateCharacterWeight_monotone_bounded 1
    (by norm_num [weightFloor]) (by norm_num [weightCeiling])

/-- C6: `selectWeightedCharacter` fails with the `invalidArgument` kind
exactly on the empty pool, and on every non-empty pool returns exactly one
element of the pool; the function is pure (state is neither taken nor
returned). -/
theorem selectWeightedCharacter_total (weight : String → ℚ) (r : ℚ)
    (pool : List String) :
    (pool = [] → selectWeightedCharacter weight r pool =
      .error (.invalidArgument emptyPoolMessage)) ∧
      (pool ≠ [] → ∃ c, selectWeightedCharacter weight r pool = .ok c ∧ c ∈ pool) := by
  constructor
  · rintro rfl
    rfl
  · intro hne
    match pool with
    | [] => exact absurd rfl hne
    | c :: rest =>
      exact ⟨pickWeightedAux weight r c rest, rfl, pickWeightedAux_mem weight r c rest⟩

/-- Witness for C6: the draw over a concrete two-element pool with unit
weights succeeds with a pool member, and the empty pool errors. -/
theorem selectWeightedCharacter_total_witness :
    (selectWeightedCharacter (fun _ => 1) (1 / 2) [] =
      .error (.invalidArgument emptyPoolMessage)) ∧
      ∃ c, selectWeightedCharacter (fun _ => 1) (1 / 2) ["a1", "a2"] = .ok c ∧
        c ∈ ["a1", "a2"] :=
  ⟨(selectWeightedCharacter_total (fun _ => 1) (1 / 2) []).1 rfl,
    (selectWeightedCharacter_total (fun _ => 1) (1 / 2) ["a1", "a2"]).2 (by decide)⟩

/-! ## Pick-round option-set lemmas -/

/-- Removing the correct key from a map with distinct keys drops exactly
one entry. -/
theorem incorrectPool_length (pairs : List (String × String)) (ck : String)
    (hkeys : (pairs.map Prod.fst).Nodup) (hk : ck ∈ pairs.map Prod.fst) :
    (incorrectPool pairs ck).length + 1 = pairs.length := by
  induction pairs with
  | nil => simp at hk
  | cons p ps ih =>
    simp only [List.map_cons, List.nodup_cons, List.mem_cons] at hkeys hk
    obtain ⟨hnotin, hnodup⟩ := hkeys
    by_cases hp : p.1 = ck
    · have hfil : (p :: ps).filter (fun q => decide (q.1 ≠ ck)) = ps := by
        rw [List.filter_cons_of_neg (by simp [hp])]
        apply List.filter_eq_self.mpr
        intro q hq
        simp only [decide_eq_true_eq]
        intro hcontra
        apply hnotin
        have hmm : q.1 ∈ List.map Prod.fst ps := List.mem_map_of_mem Prod.fst hq
        rwa [hcontra, ← hp] at hmm
      simp only [incorrectPool]
      rw [hfil]
      simp
    · have hk2 : ck ∈ ps.map Prod.fst := by
        rcases hk with h | h
        · exact absurd h.symm hp
        · exact h
      have hrec := ih hnodup hk2
      simp only [incorrectPool] at hrec ⊢
      rw [List.filter_cons_of_pos (by simp [hp])]
      simp only [List.map_cons, List.length_cons]
      omega

/-- With distinct romanizations, the correct answer is not among the
values that survive removing its key. -/
theorem correct_not_mem_incorrectPool (pairs : List (String × String))
    (ck cv : String) (hvals : (pairs.map Prod.snd).Nodup)
    (hmem : (ck, cv) ∈ pairs) : cv ∉ incorrectPool pairs ck := by
  intro hcv
  simp only [incorrectPool, List.mem_map] at hcv
  obtain ⟨q, hq, hqv⟩ := hcv
  obtain ⟨hq_mem, hq_ne⟩ := List.mem_filter.mp hq
  have hinj := List.inj_on_of_nodup_map hvals
  have hq_eq : q = (ck, cv) := hinj hq_mem hmem hqv
  simp only [decide_eq_true_eq] at hq_ne
  exact hq_ne (by rw [hq_eq])

/-- The surviving values inherit distinctness from the value column. -/
theorem incorrectPool_nodup (pairs : List (String × String)) (ck : String)
    (hvals : (pairs.map Prod.snd).Nodup) : (incorrectPool pairs ck).Nodup :=
  List.Nodup.sublist ((List.filter_sublist pairs).map Prod.snd) hvals

/-- Core facts of one pick round's option set: with a pool of at least
`optionCount` bijective pairs, the presented list (correct answer
prepended to the sliced shuffle of the remaining values, then shuffled)
has exactly `optionCount` entries, contains the correct answer exactly
once, draws every other entry from the remaining pool without
replacement, and has no duplicates. -/
theorem buildVariants_properties (pairs : List (String × String))
    (ck cv : String) (optionCount : Nat) (p1 variants : List String)
    (hmem : (ck, cv) ∈ pairs)
    (hkeys : (pairs.map Prod.fst).Nodup)
    (hvals : (pairs.map Prod.snd).Nodup)
    (hcount : optionCount ≤ pairs.length) (hpos : 1 ≤ optionCount)
    (hp1 : p1.Perm (incorrectPool pairs ck))
    (hvar : variants.Perm (cv :: getIncorrectOptions p1 optionCount)) :
    variants.length = optionCount ∧
      variants.count cv = 1 ∧
      (∀ v ∈ variants, v ≠ cv → v ∈ incorrectPool pairs ck) ∧
      variants.Nodup := by
  have hk : ck ∈ pairs.map Prod.fst := List.mem_map_of_mem Prod.fst hmem
  have hlen_pool := incorrectPool_length pairs ck hkeys hk
  have hp1len : p1.length = (incorrectPool pairs ck).length := hp1.length_eq
  have hcv_pool : cv ∉ incorrectPool pairs ck :=
    correct_not_mem_incorrectPool pairs ck cv hvals hmem
  have hcv_p1 : cv ∉ p1 := fun h => hcv_pool (hp1.mem_iff.mp h)
  have htake_sub : getIncorrectOptions p1 optionCount ⊆ p1 :=
    List.take_subset _ _
  have hcv_take : cv ∉ getIncorrectOptions p1 optionCount :=
    fun h => hcv_p1 (htake_sub h)
  have hnodup_p1 : p1.Nodup :=
    hp1.nodup_iff.mpr (incorrectPool_nodup pairs ck hvals)
  have hnodup_take : (getIncorrectOptions p1 optionCount).Nodup :=
    List.Nodup.sublist (List.take_sublist _ _) hnodup_p1
  have htake_len : (getIncorrectOptions p1 optionCount).length = optionCount - 1 := by
    simp only [getIncorrectOptions, List.length_take]
    omega
  refine ⟨?_, ?_, ?_, ?_⟩
  · rw [hvar.length_eq, List.length_cons, htake_len]
    omega
  · rw [hvar.count_eq, List.count_cons_self,
      List.count_eq_zero_of_not_mem hcv_take]
  · intro v hv hvne
    rcases List.mem_cons.mp (hvar.mem_iff.mp hv) with h | h
    · exact absurd h hvne
    · exact hp1.mem_iff.mp (htake_sub h)
  · exact hvar.nodup_iff.mpr (List.nodup_cons.mpr ⟨hcv_take, hnodup_take⟩)

/-! ## C2 and C1 -/

/-- A pool in which two characters share a romanization, as the kana data
does (e.g. じ/ぢ → "ji") — the dual maps `selectedPairs1`/`selectedPairs2`
and the double accept test via `reversedPairs1`/`reversedPairs2` in
PickGame exist exactly for such pairs. -/
def demoDupPairs : List (String × String) :=
  [("si", "ji"), ("di", "ji"), ("ka", "ka")]

/-- The correct key of the duplicate-romaji round. -/
def demoDupCk : String :=
  "si"

/-- The correct value of the duplicate-romaji round, shared with the
second entry. -/
def demoDupCv : String :=
  "ji"

/-- The values surviving removal of the correct key, unshuffled — the
duplicate romanization survives. -/
def demoDupIncorrect : List String :=
  ["ji", "ka"]

/-- The options such a round presents (identity shuffles). -/
def demoDupVariants : List String :=
  ["ji", "ji", "ka"]

/-- Counterexample for C2: a pick round over a pool with at least
`optionCount` entries but a duplicated romanization.  The round is built
exactly as the code builds it (correct value prepended to the sliced
remaining values, identity shuffles, distinct keys, pool length 3 at
`optionCount = 3`), yet the presented list contains the correct answer
string twice and has duplicates — removing the correct *key* does not
remove the other entry carrying the same romaji value. -/
theorem pick_round_duplicate_correct_answer :
    (demoDupCk, demoDupCv) ∈ demoDupPairs ∧
      (demoDupPairs.map Prod.fst).Nodup ∧
      3 ≤ demoDupPairs.length ∧
      demoDupIncorrect = incorrectPool demoDupPairs demoDupCk ∧
      demoDupVariants = demoDupCv :: getIncorrectOptions demoDupIncorrect 3 ∧
      demoDupVariants.count demoDupCv = 2 ∧
      ¬ demoDupVariants.Nodup := by
  refine ⟨by decide, by decide, by decide, by decide, by decide, by decide, by decide⟩

/-- C2 (amended): in a pick round whose pool has at least `optionCount`
entries and whose romanizations are pairwise distinct, the presented
option list has exactly `optionCount` elements, contains the correct
answer exactly once, and every other element is a distractor drawn
without replacement from the pool with the correct answer excluded; the
final order is an arbitrary permutation (the shuffle).  The two random
sorts of the source are the permutation hypotheses `hp1` and `hvar`;
without the distinctness hypothesis the correct answer can be presented
twice. -/
theorem pick_round_option_set (pairs : List (String × String))
    (ck cv : String) (optionCount : Nat) (p1 variants : List String)
    (hmem : (ck, cv) ∈ pairs)
    (hkeys : (pairs.map Prod.fst).Nodup)
    (hvals : (pairs.map Prod.snd).Nodup)
    (hcount : optionCount ≤ pairs.length) (hpos : 1 ≤ optionCount)
    (hp1 : p1.Perm (incorrectPool pairs ck))
    (hvar : variants.Perm (cv :: getIncorrectOptions p1 optionCount)) :
    variants.length = optionCount ∧
      variants.count cv = 1 ∧
      (∀ v ∈ variants, v ≠ cv → v ∈ incorrectPool pairs ck) ∧
      variants.Nodup :=
  buildVariants_properties pairs ck cv optionCount p1 variants hmem hkeys
    hvals hcount hpos hp1 hvar

/-- A concrete three-entry pool. -/
def demoPool3 : List (String × String) :=
  [("a1", "b1"), ("a2", "b2"), ("a3", "b3")]

/-- The correct key of the demo round. -/
def demoCk : String :=
  "a1"

/-- The correct value of the demo round. -/
def demoCv : String :=
  "b1"

/-- The remaining values of the demo round, unshuffled. -/
def demoIncorrect : List String :=
  ["b2", "b3"]

/-- The presented options of the demo round, unshuffled. -/
def demoVariants : List String :=
  ["b1", "b2", "b3"]

/-- Witness for C2 at the concrete three-entry pool with identity
shuffles. -/
theorem pick_round_option_set_witness :
    demoVariants.length = 3 ∧
      demoVariants.count demoCv = 1 ∧
      (∀ v ∈ demoVariants, v ≠ demoCv → v ∈ incorrectPool demoPool3 demoCk) ∧
      demoVariants.Nodup :=
  pick_round_option_set demoPool3 demoCk demoCv 3 demoIncorrect demoVariants
    (by decide) (by decide) (by decide) (by decide) (by decide) (by decide)
    (by decide)

/-- A concrete two-entry pool, smaller than the fresh option count. -/
def demoPool2 : List (String × String) :=
  [("a1", "b1"), ("a2", "b2")]

/-- The correct key of the short-pool round. -/
def demoCk2 : String :=
  "a1"

/-- The correct value of the short-pool round. -/
def demoCv2 : String :=
  "b1"

/-- Counterexample for C1, both halves of the claim.  Word game: at a
fresh session (fresh ProgressiveDifficulty state, `optionCount = 3` under
the pick configuration) a word-building round over an eight-character
pool presents 6 tiles — `wordLength + min 3 (poolSize - wordLength)` —
not 3; the component never reads ProgressiveDifficulty at all.  Pick
game: over a two-entry pool (with identity shuffles) the round built at
the fresh `optionCount = 3` presents only 2 options. -/
theorem presented_options_ne_optionCount :
    (generateWord headSelector headSelector id false demoKana demoRomaji
        demoK2R demoR2K 3).allTiles.length = 6 ∧
      (initialDifficulty pickDifficultyConfig).optionCount = 3 ∧
      (6 : Nat) ≠ 3 ∧
      (demoCk2, demoCv2) ∈ demoPool2 ∧
      (demoCv2 :: getIncorrectOptions (incorrectPool demoPool2 demoCk2) 3).length = 2 ∧
      (2 : Nat) ≠ 3 := by
  refine ⟨by decide, rfl, by decide, by decide, by decide, by decide⟩

/-- C1 (amended): in every round of the character-pick game whose pool has
at least `optionCount` entries, the number of presented answer options is
exactly the current `optionCount` obtained from ProgressiveDifficulty;
with a smaller pool the pick game presents fewer options, and the
word-building game does not obtain its tile count from
ProgressiveDifficulty at all. -/
theorem pick_round_presents_optionCount (pairs : List (String × String))
    (ck cv : String) (optionCount : Nat) (p1 variants : List String)
    (hmem : (ck, cv) ∈ pairs)
    (hkeys : (pairs.map Prod.fst).Nodup)
    (hcount : optionCount ≤ pairs.length) (hpos : 1 ≤ optionCount)
    (hp1 : p1.Perm (incorrectPool pairs ck))
    (hvar : variants.Perm (cv :: getIncorrectOptions p1 optionCount)) :
    variants.length = optionCount := by
  have hk : ck ∈ pairs.map Prod.fst := List.mem_map_of_mem Prod.fst hmem
  have hlen_pool := incorrectPool_length pairs ck hkeys hk
  have hp1len : p1.length = (incorrectPool pairs ck).length := hp1.length_eq
  rw [hvar.length_eq, List.length_cons, getIncorrectOptions, List.length_take]
  omega

/-- Witness for the amended C1 at the concrete three-entry pool. -/
theorem pick_round_presents_optionCount_witness :
    demoVariants.length = 3 :=
  pick_round_presents_optionCount demoPool3 demoCk demoCv 3 demoIncorrect
    demoVariants (by decide) (by decide) (by decide) (by decide) (by decide)
    (by decide)

end KanaDojo
